import Mathlib

/-
Verification of the TurboIndex core engines against their specification.

The development shallowly embeds two components of the repository:

* `turboindex/rewriter.py` — the rule-based SQL rewrite engine
  (`rewrite_query` and its three always-on rules: null-comparison
  normalization, OR-chain to IN-list folding, YEAR()-equality to range).
  The Python rules are regular-expression substitutions; here each
  regex is hand-compiled to a deterministic matcher on `List Char`.
  For every pattern in the source the compilation is exact because the
  only nondeterministic constructs (`\s*`, `\s+`, `[\w\.]+`, `[^\s]+`
  followed by a character outside the class) never benefit from
  backtracking: shrinking a greedy run always leaves a character of the
  run's class where the follow-up literal is required, so the greedy
  (maximal-run) reading is the unique successful one.  `re.sub` scans
  left to right and replaces non-overlapping matches, resuming after
  each match; `subScanF` below implements exactly that scan.

* `turboindex/index_recommender.py` — the EXPLAIN-plan analyzer
  (`_analyze_explain_for_indexes`, `_compute_index_health`,
  `_suggest_index_name`).

Python strings are modelled as `String`/`List Char` (ASCII semantics:
`str.lower`, `str.strip` and `\s` are modelled on the ASCII subset,
which is the range exercised by SQL keywords and the rules' patterns).
Python dict-backed plan rows are modelled as a structure of `Option
String` fields, with Python truthiness (`None` and `""` are falsy)
made explicit.
-/

namespace TurboIndex

/-! ### Character classes (Python `re` ASCII semantics) -/

/- Python `\s` on ASCII: space, tab, newline, carriage return, vertical tab, form feed. -/
def isPySpace (c : Char) : Bool :=
  c == ' ' || c == '\t' || c == '\n' || c == '\r' || c == '\x0b' || c == '\x0c'

/- Python `\w` on ASCII: letters, digits, underscore. -/
def isWordChar (c : Char) : Bool :=
  c.isAlpha || c.isDigit || c == '_'

/- The class `[\w\.]` used for column names in the rewriter patterns. -/
def isColChar (c : Char) : Bool :=
  isWordChar c || c == '.'

/- The class `[^\s]` used for value tokens. -/
def isTokChar (c : Char) : Bool :=
  !isPySpace c

/- ASCII lowercasing, as `str.lower` / `re.IGNORECASE` act on ASCII. -/
def lowerChar (c : Char) : Char :=
  if 65 ≤ c.toNat ∧ c.toNat ≤ 90 then Char.ofNat (c.toNat + 32) else c

/- `str.lower` on whole strings (ASCII model). -/
def pyLower (s : String) : String :=
  String.mk (s.data.map lowerChar)

/-! ### List-of-characters utilities -/

/- Split a list into its maximal leading run of characters satisfying `p`
and the remainder.  This is the deterministic reading of a greedy
`p*` / `p+` regex element whose follow-up cannot start with a `p`-character. -/
def splitRun (p : Char → Bool) : List Char → List Char × List Char
  | [] => ([], [])
  | c :: cs =>
    if p c then
      let q := splitRun p cs
      (c :: q.1, q.2)
    else ([], c :: cs)

/- Case-insensitive literal matching: consume `pat` (up to ASCII case) from
the front of `l`, returning the consumed text verbatim and the remainder. -/
def stripCI : List Char → List Char → Option (List Char × List Char)
  | [], l => some ([], l)
  | _ :: _, [] => none
  | p :: ps, c :: cs =>
    if lowerChar c == lowerChar p then
      match stripCI ps cs with
      | some (t, r) => some (c :: t, r)
      | none => none
    else none

/- Case-sensitive substring test, modelling Python `needle in hay`. -/
def isPreOf : List Char → List Char → Bool
  | [], _ => true
  | _ :: _, [] => false
  | p :: ps, c :: cs => p == c && isPreOf ps cs

def hasSubL (needle : List Char) : List Char → Bool
  | [] => isPreOf needle []
  | c :: cs => isPreOf needle (c :: cs) || hasSubL needle cs

def hasSub (hay needle : String) : Bool :=
  hasSubL needle.data hay.data

/-! ### The substitution scanner (`re.sub` left-to-right, non-overlapping) -/

/- One rewrite rule is a matcher `f` returning captured data and the rest of
the input after the match, plus a replacement builder `rp`.  `subScanF`
scans positions left to right; at a match it emits the replacement and
resumes after the matched region, otherwise it copies one character.
It returns the number of matches replaced together with the output.
The fuel argument is always instantiated with the input length, which
suffices because every matcher used below consumes at least one
character when it succeeds. -/
def subScanF {β : Type} (f : List Char → Option (β × List Char)) (rp : β → List Char) :
    Nat → List Char → Nat × List Char
  | 0, l => (0, l)
  | _ + 1, [] => (0, [])
  | fuel + 1, c :: cs =>
    match f (c :: cs) with
    | some (b, r) =>
      let p := subScanF f rp fuel r
      (p.1 + 1, rp b ++ p.2)
    | none =>
      let p := subScanF f rp fuel cs
      (p.1, c :: p.2)

/- `re.search` viewed as a Boolean: does the pattern match at some position? -/
def hasMatchAt {β : Type} (f : List Char → Option (β × List Char)) : List Char → Bool
  | [] => (f []).isSome
  | c :: cs => (f (c :: cs)).isSome || hasMatchAt f cs

/-! ### Rule 1: null-comparison normalization
Patterns `!=\s*NULL` and `=\s*NULL` (IGNORECASE), from
`_rewrite_null_comparisons`. -/

def nullLit : List Char := ['n', 'u', 'l', 'l']

/- Matcher for `!=\s*NULL` at the current position. -/
def matchBangEqNull : List Char → Option (Unit × List Char)
  | '!' :: '=' :: rest =>
    match stripCI nullLit (splitRun isPySpace rest).2 with
    | some (_, r) => some ((), r)
    | none => none
  | _ => none

/- Matcher for `=\s*NULL` at the current position. -/
def matchEqNull : List Char → Option (Unit × List Char)
  | '=' :: rest =>
    match stripCI nullLit (splitRun isPySpace rest).2 with
    | some (_, r) => some ((), r)
    | none => none
  | _ => none

def isNotNullRepl : List Char := "IS NOT NULL".data

def isNullRepl : List Char := "IS NULL".data

/-! ### Rule 2: OR-chain to IN-list folding
Pattern (IGNORECASE, from `_rewrite_or_to_in`):
`WHERE\s+([\w\.]+)\s*=\s*([^\s]+)\s+OR\s+\1\s*=\s*([^\s]+(?:\s+OR\s+\1\s*=\s*[^\s]+)*)`
With the IGNORECASE flag, the backreference also matches case-insensitively. -/

def whereLit : List Char := ['w', 'h', 'e', 'r', 'e']

def orLit : List Char := ['o', 'r']

/- One iteration of the trailing group `(?:\s+OR\s+\1\s*=\s*[^\s]+)`:
returns the consumed text verbatim and the remainder. -/
def orIterStep (col : List Char) (l : List Char) : Option (List Char × List Char) :=
  let w1 := splitRun isPySpace l
  if w1.1.isEmpty then none else
  match stripCI orLit w1.2 with
  | none => none
  | some (t1, l2) =>
    let w2 := splitRun isPySpace l2
    if w2.1.isEmpty then none else
    match stripCI col w2.2 with
    | none => none
    | some (t2, l4) =>
      let w3 := splitRun isPySpace l4
      match w3.2 with
      | '=' :: l6 =>
        let w4 := splitRun isPySpace l6
        let wtok := splitRun isTokChar w4.2
        if wtok.1.isEmpty then none
        else some (w1.1 ++ t1 ++ w2.1 ++ t2 ++ w3.1 ++ '=' :: (w4.1 ++ wtok.1), wtok.2)
      | _ => none

/- Greedy repetition of `orIterStep`; the group is at the end of the
pattern so the maximal iteration count is final (no backtracking). -/
def orIterF (col : List Char) : Nat → List Char → List Char × List Char
  | 0, l => ([], l)
  | fuel + 1, l =>
    match orIterStep col l with
    | none => ([], l)
    | some (t, r) =>
      let p := orIterF col fuel r
      (t ++ p.1, p.2)

/- Captures of one match of the OR-chain pattern: group 1 (`col`),
group 2 (`v1`), group 3 verbatim (`g3`), and the rest of the input. -/
structure OrMatch where
  col : List Char
  v1 : List Char
  g3 : List Char
  rest : List Char

/- Matcher for the whole OR-chain pattern at the current position. -/
def matchOrChain (l : List Char) : Option (OrMatch × List Char) :=
  match stripCI whereLit l with
  | none => none
  | some (_, l1) =>
    let w1 := splitRun isPySpace l1
    if w1.1.isEmpty then none else
    let wc := splitRun isColChar w1.2
    if wc.1.isEmpty then none else
    let w2 := splitRun isPySpace wc.2
    match w2.2 with
    | '=' :: l5 =>
      let w3 := splitRun isPySpace l5
      let wv1 := splitRun isTokChar w3.2
      if wv1.1.isEmpty then none else
      let w4 := splitRun isPySpace wv1.2
      if w4.1.isEmpty then none else
      match stripCI orLit w4.2 with
      | none => none
      | some (_, l9) =>
        let w5 := splitRun isPySpace l9
        if w5.1.isEmpty then none else
        match stripCI wc.1 w5.2 with
        | none => none
        | some (_, l11) =>
          let w6 := splitRun isPySpace l11
          match w6.2 with
          | '=' :: l13 =>
            let w7 := splitRun isPySpace l13
            let wv2 := splitRun isTokChar w7.2
            if wv2.1.isEmpty then none else
            let p := orIterF wc.1 wv2.2.length wv2.2
            some (⟨wc.1, wv1.1, wv2.1 ++ p.1, p.2⟩, p.2)
          | _ => none
    | _ => none

/- The separator pattern `\s+OR\s+` of `re.split` at the current position. -/
def orSepAt (l : List Char) : Option (List Char) :=
  let w1 := splitRun isPySpace l
  if w1.1.isEmpty then none else
  match stripCI orLit w1.2 with
  | none => none
  | some (_, l2) =>
    let w2 := splitRun isPySpace l2
    if w2.1.isEmpty then none else some w2.2

/- Find the leftmost separator: the piece before it and the remainder after it. -/
def findOrSep : List Char → Option (List Char × List Char)
  | [] => none
  | c :: cs =>
    match orSepAt (c :: cs) with
    | some r => some ([], r)
    | none =>
      match findOrSep cs with
      | some (piece, rest) => some (c :: piece, rest)
      | none => none

/- `re.split(r"\s+OR\s+", l, flags=re.IGNORECASE)`. -/
def pySplitOrF : Nat → List Char → List (List Char)
  | 0, l => [l]
  | fuel + 1, l =>
    match findOrSep l with
    | none => [l]
    | some (piece, rest) => piece :: pySplitOrF fuel rest

def pySplitOr (l : List Char) : List (List Char) :=
  pySplitOrF l.length l

/- `part.partition("=")` keeping only the third component (text after the
first `=`; empty when there is no `=`). -/
def pyPartAfterEq : List Char → List Char
  | [] => []
  | c :: cs => if c == '=' then cs else pyPartAfterEq cs

/- `str.strip()` (ASCII whitespace model). -/
def pyStrip (l : List Char) : List Char :=
  ((splitRun isPySpace ((splitRun isPySpace l).2.reverse)).2).reverse

/- `", ".join(values)`. -/
def joinCommaSp : List (List Char) → List Char
  | [] => []
  | [v] => v
  | v :: vs => v ++ ',' :: ' ' :: joinCommaSp vs

/- The replacement function `repl` of `_rewrite_or_to_in`:
`values = [first_value] + [part.partition("=")[2].strip() for part in re.split(or-sep, rest)]`
and the result is `WHERE {column} IN ({", ".join(values)})`. -/
def orRepl (m : OrMatch) : List Char :=
  let values := m.v1 :: (pySplitOr m.g3).map (fun p => pyStrip (pyPartAfterEq p))
  "WHERE ".data ++ m.col ++ " IN (".data ++ joinCommaSp values ++ [')']

/-! ### Rule 3: YEAR()-equality to sargable range
Pattern (IGNORECASE, from `_rewrite_year_function_on_column`):
`YEAR\s*\(\s*([\w\.]+)\s*\)\s*=\s*(\d{4})` -/

def yearLit : List Char := ['y', 'e', 'a', 'r']

def digitVal (c : Char) : Nat := c.toNat - 48

def digitChar (n : Nat) : Char := Char.ofNat (48 + n)

/- Python `f"{n:04d}"` for the values reachable here (`n ≤ 10000`:
the matched year is at most 9999 and the replacement also formats
`year + 1`).  Four-digit values are zero-padded; 10000 prints as-is. -/
def fmt04 (n : Nat) : List Char :=
  if n < 10000 then
    [digitChar (n / 1000 % 10), digitChar (n / 100 % 10), digitChar (n / 10 % 10), digitChar (n % 10)]
  else
    ['1', '0', '0', '0', '0']

/- Captures of one match of the YEAR pattern: the column (group 1) and
the numeric value of the 4-digit year (group 2). -/
structure YearMatch where
  col : List Char
  year : Nat

/- Matcher for the YEAR pattern at the current position. -/
def matchYear (l : List Char) : Option (YearMatch × List Char) :=
  match stripCI yearLit l with
  | none => none
  | some (_, l1) =>
    let w1 := splitRun isPySpace l1
    match w1.2 with
    | '(' :: l3 =>
      let w2 := splitRun isPySpace l3
      let wc := splitRun isColChar w2.2
      if wc.1.isEmpty then none else
      let w3 := splitRun isPySpace wc.2
      match w3.2 with
      | ')' :: l7 =>
        let w4 := splitRun isPySpace l7
        match w4.2 with
        | '=' :: l9 =>
          let w5 := splitRun isPySpace l9
          match w5.2 with
          | d1 :: d2 :: d3 :: d4 :: r =>
            if d1.isDigit && d2.isDigit && d3.isDigit && d4.isDigit then
              some (⟨wc.1, digitVal d1 * 1000 + digitVal d2 * 100 + digitVal d3 * 10 + digitVal d4⟩, r)
            else none
          | _ => none
        | _ => none
      | _ => none
    | _ => none

/- The replacement `f"{column} >= {start} AND {column} < {end}"` with
`start = f"{year:04d}-01-01"` and `end = f"{year+1:04d}-01-01"`, quoted. -/
def yearRepl (m : YearMatch) : List Char :=
  m.col ++ " >= \x27".data ++ fmt04 m.year ++ "-01-01\x27 AND ".data ++
    m.col ++ " < \x27".data ++ fmt04 (m.year + 1) ++ "-01-01\x27".data

/-! ### The rewrite engine (`rewrite_query`) -/

/- One applied transformation record. -/
structure RewriteChange where
  description : String
deriving DecidableEq, Repr

/- The result of one rewrite invocation. -/
structure RewriteResult where
  original_sql : String
  rewritten_sql : String
  mode : String
  changes : List RewriteChange
deriving DecidableEq, Repr

def descBangNull : RewriteChange := ⟨"Replaced `!= NULL` with `IS NOT NULL`"⟩

def descEqNull : RewriteChange := ⟨"Replaced `= NULL` with `IS NULL`"⟩

def descOrToIn : RewriteChange := ⟨"Converted OR chain to IN() list"⟩

def descYear : RewriteChange :=
  ⟨"Rewrote YEAR() equality to date range predicate to allow index usage"⟩

/- `_rewrite_null_comparisons`: substitute `!=\s*NULL` then `=\s*NULL`;
each pattern records one change when it fired (Python first calls
`search`, which succeeds exactly when `sub` replaces at least once). -/
def rewriteNullComparisons (l : List Char) : List Char × List RewriteChange :=
  let p1 := subScanF matchBangEqNull (fun _ => isNotNullRepl) l.length l
  let c1 : List RewriteChange := if p1.1 == 0 then [] else [descBangNull]
  let p2 := subScanF matchEqNull (fun _ => isNullRepl) p1.2.length p1.2
  let c2 : List RewriteChange := if p2.1 == 0 then [] else [descEqNull]
  (p2.2, c1 ++ c2)

/- `_rewrite_or_to_in`: one change is recorded per replaced match
(the Python replacement callback appends to `changes`). -/
def rewriteOrToIn (l : List Char) : List Char × List RewriteChange :=
  let p := subScanF matchOrChain orRepl l.length l
  (p.2, List.replicate p.1 descOrToIn)

/- `_rewrite_year_function_on_column`: one change per replaced match. -/
def rewriteYearOnColumn (l : List Char) : List Char × List RewriteChange :=
  let p := subScanF matchYear yearRepl l.length l
  (p.2, List.replicate p.1 descYear)

/- `rewrite_query(sql, mode)`: lowercases the mode, runs the three safe
rules in order, threads the change list, and never branches on the tier
(the `moderate`/`aggressive` arm of the Python function is a `pass`). -/
def rewrite_query (sql : String) (mode : String) : RewriteResult :=
  let p1 := rewriteNullComparisons sql.data
  let p2 := rewriteOrToIn p1.1
  let p3 := rewriteYearOnColumn p2.1
  { original_sql := sql
    rewritten_sql := String.mk p3.1
    mode := pyLower mode
    changes := p1.2 ++ p2.2 ++ p3.2 }

/-! ### The plan analyzer (`index_recommender.py`)

A plan row is a dict in the source; the analyzer reads the keys
`table`, `type`, `possible_keys`, `key` and `Extra`, all string-valued
(or absent / NULL).  `none` models an absent key or a NULL value;
Python truthiness (`None` and `""` are falsy) is `pyTruthy`. -/

structure PlanRow where
  table : Option String
  typ : Option String
  possibleKeys : Option String
  key : Option String
  extra : Option String
deriving DecidableEq, Repr

/- Python `x or d` for an optional string `x` (both `None` and `""` fall
through to the default). -/
def pyStrOr (o : Option String) (d : String) : String :=
  match o with
  | none => d
  | some s => if s == "" then d else s

/- Python truthiness of an optional string. -/
def pyTruthy (o : Option String) : Bool :=
  match o with
  | none => false
  | some s => s != ""

structure IndexRecommendation where
  table : String
  suggested_index_name : String
  columns : List String
  reason : String
deriving DecidableEq, Repr

/- `_suggest_index_name(table, columns)`. -/
def suggest_index_name (table : String) (columns : List String) : String :=
  "idx_" ++ table ++ "_" ++ String.intercalate "_" (columns.take 3)

def placeholderColumn : String := "<choose_filter_column>"

def fullScanReason : String :=
  "Full table scan detected with WHERE filtering and no index; consider adding an index on the main filter column."

/- The body of the `for row in explain_rows` loop of
`_analyze_explain_for_indexes`: `none` models `continue`. -/
def analyzeRow (row : PlanRow) : Option IndexRecommendation :=
  let accessType := pyLower (pyStrOr row.typ "")
  let extra := pyStrOr row.extra ""
  if accessType == "all" && !pyTruthy row.key && hasSub extra "Using where" then
    if pyTruthy row.possibleKeys then none
    else if !pyTruthy row.table then none
    else
      let table := pyStrOr row.table ""
      let whereColumns := [placeholderColumn]
      some
        { table := table
          suggested_index_name := suggest_index_name table whereColumns
          columns := whereColumns
          reason := fullScanReason }
  else none

/- `_analyze_explain_for_indexes(explain_rows)`. -/
def analyze_explain_for_indexes : List PlanRow → List IndexRecommendation
  | [] => []
  | row :: rows =>
    match analyzeRow row with
    | some rec => rec :: analyze_explain_for_indexes rows
    | none => analyze_explain_for_indexes rows

/- The body of the scoring loop of `_compute_index_health`, acting on the
accumulated `(score, issues)` pair. -/
def healthRowStep (acc : Int × List String) (row : PlanRow) : Int × List String :=
  let table := pyStrOr row.table "?"
  let accessType := pyLower (pyStrOr row.typ "")
  let extra := pyLower (pyStrOr row.extra "")
  let acc1 :=
    if accessType == "all" then
      (acc.1 - 20, acc.2 ++ ["Full table scan on " ++ table ++ " (type=ALL)"])
    else if accessType == "index" then
      (acc.1 - 5, acc.2 ++ ["Sequential index scan on " ++ table ++ " (type=index)"])
    else acc
  let acc2 :=
    if hasSub extra "filesort" then
      (acc1.1 - 10, acc1.2 ++ ["Filesort required for " ++ table])
    else acc1
  if hasSub extra "temporary" then
    (acc2.1 - 10, acc2.2 ++ ["Temporary table used for " ++ table])
  else acc2

/- `_compute_index_health(explain_rows, recommendations)`: score starts at
100, the loop subtracts penalties and appends issues, a non-empty
recommendation list costs `min(5 * count, 20)` and appends one final
issue, and the score is clamped to `[0, 100]`. -/
def compute_index_health (rows : List PlanRow) (recs : List IndexRecommendation) :
    Int × List String :=
  let acc := rows.foldl healthRowStep (100, [])
  let acc2 :=
    if recs.isEmpty then acc
    else
      (acc.1 - min (5 * (recs.length : Int)) 20,
        acc.2 ++ [toString recs.length ++ " index recommendation(s) suggested"])
  (max 0 (min 100 acc2.1), acc2.2)

/-! ### Auxiliary definitions for the verification layer -/

/- Counting measure used to show that every replacement performed by the
rewrite rules strictly shrinks the text in a way no later rule can undo:
the number of characters that are `=` or `(`. -/
def countMu (l : List Char) : Nat :=
  l.countP (fun c => c == '=' || c == '(')

/- Specification-side health scoring, stated from the specification text:
per-row penalties are `-20` for a full scan (`type = ALL`), `-5` for a
sequential index scan (`type = index`), `-10` when the annotation
mentions `filesort` and `-10` when it mentions a temporary table. -/
def specRowPenalty (row : PlanRow) : Int :=
  (if pyLower (pyStrOr row.typ "") == "all" then 20
   else if pyLower (pyStrOr row.typ "") == "index" then 5 else 0) +
  (if hasSub (pyLower (pyStrOr row.extra "")) "filesort" then 10 else 0) +
  (if hasSub (pyLower (pyStrOr row.extra "")) "temporary" then 10 else 0)

/- Specification-side issue strings for one row, in the stated order. -/
def specRowIssues (row : PlanRow) : List String :=
  (if pyLower (pyStrOr row.typ "") == "all" then
    ["Full table scan on " ++ pyStrOr row.table "?" ++ " (type=ALL)"]
   else if pyLower (pyStrOr row.typ "") == "index" then
    ["Sequential index scan on " ++ pyStrOr row.table "?" ++ " (type=index)"]
   else []) ++
  (if hasSub (pyLower (pyStrOr row.extra "")) "filesort" then
    ["Filesort required for " ++ pyStrOr row.table "?"] else []) ++
  (if hasSub (pyLower (pyStrOr row.extra "")) "temporary" then
    ["Temporary table used for " ++ pyStrOr row.table "?"] else [])

/- Specification-side formulation of the health computation: start from
100, subtract the sum of the per-row penalties (additively across rows),
subtract `min(5 * count, 20)` when recommendations exist, clamp to
`[0, 100]`; issues are the concatenation of the per-row issues in
row-iteration order with the recommendation-count issue appended last. -/
def computeHealthSpec (rows : List PlanRow) (recs : List IndexRecommendation) :
    Int × List String :=
  let total : Int := (rows.map specRowPenalty).sum
  let issues := (rows.map specRowIssues).flatten
  let total2 := if recs.isEmpty then total else total + min (5 * (recs.length : Int)) 20
  let issues2 :=
    if recs.isEmpty then issues
    else issues ++ [toString recs.length ++ " index recommendation(s) suggested"]
  (max 0 (min 100 (100 - total2)), issues2)

/- The four per-row conditions exactly as the specification states them
for emitting an index recommendation: full scan, no chosen index, the
`Using where` filter marker, and empty/absent `possible_keys`. -/
def specRecFlag (row : PlanRow) : Bool :=
  pyLower (pyStrOr row.typ "") == "all" && !pyTruthy row.key &&
    hasSub (pyStrOr row.extra "") "Using where" && !pyTruthy row.possibleKeys

/-! ### Basic lemmas about the scanning primitives -/

theorem splitRun_append (p : Char → Bool) (l : List Char) :
    (splitRun p l).1 ++ (splitRun p l).2 = l := by
  induction l with
  | nil => rfl
  | cons c cs ih =>
    simp only [splitRun]
    split
    · simpa using ih
    · rfl

theorem splitRun_pred (p : Char → Bool) (l : List Char) :
    ∀ c ∈ (splitRun p l).1, p c = true := by
  induction l with
  | nil => intro c hc; simp [splitRun] at hc
  | cons c cs ih =>
    intro d hd
    simp only [splitRun] at hd
    split at hd
    · rename_i hp
      rcases List.mem_cons.mp hd with hd | hd
      · subst hd; exact hp
      · exact ih d hd
    · simp at hd

theorem stripCI_decomp (pat : List Char) (l t r : List Char)
    (h : stripCI pat l = some (t, r)) :
    l = t ++ r ∧ t.map lowerChar = pat.map lowerChar := by
  induction pat generalizing l t r with
  | nil =>
    simp only [stripCI, Option.some.injEq, Prod.mk.injEq] at h
    obtain ⟨h1, h2⟩ := h
    subst h1; subst h2
    simp
  | cons p ps ih =>
    cases l with
    | nil => simp [stripCI] at h
    | cons c cs =>
      simp only [stripCI] at h
      split at h
      · rename_i hlow
        split at h
        · rename_i t' r' hrec
          simp only [Option.some.injEq, Prod.mk.injEq] at h
          obtain ⟨h1, h2⟩ := h
          subst h2
          obtain ⟨hd1, hd2⟩ := ih cs t' r' hrec
          subst h1
          constructor
          · simp [hd1]
          · have hcp : lowerChar c = lowerChar p := by simpa using hlow
            simp [List.map_cons, hd2, hcp]
        · exact absurd h (by simp)
      · exact absurd h (by simp)

theorem countMu_append (a b : List Char) : countMu (a ++ b) = countMu a + countMu b := by
  simp [countMu, List.countP_append]

theorem countMu_cons (c : Char) (l : List Char) :
    countMu (c :: l) = countMu l + if (c == '=' || c == '(') = true then 1 else 0 := by
  simp [countMu, List.countP_cons]

theorem countMu_reverse (l : List Char) : countMu l.reverse = countMu l := by
  induction l with
  | nil => rfl
  | cons c cs ih =>
    rw [List.reverse_cons, countMu_append, ih, countMu_cons, countMu_cons]
    have h0 : countMu ([] : List Char) = 0 := rfl
    omega

theorem countMu_eq_zero {l : List Char}
    (h : ∀ c ∈ l, (c == '=' || c == '(') = false) : countMu l = 0 := by
  simp only [countMu, List.countP_eq_zero]
  intro c hc
  simp [h c hc]

/- Characters in a whitespace run contribute nothing to `countMu`. -/
theorem countMu_space_run (l : List Char) (h : ∀ c ∈ l, isPySpace c = true) :
    countMu l = 0 := by
  apply countMu_eq_zero
  intro c hc
  by_contra hmu
  rw [Bool.not_eq_false, Bool.or_eq_true] at hmu
  rcases hmu with hmu | hmu <;> rw [beq_iff_eq] at hmu <;> subst hmu <;>
    exact absurd (h _ hc) (by decide)

/- Characters in a column-name run contribute nothing to `countMu`. -/
theorem countMu_col_run (l : List Char) (h : ∀ c ∈ l, isColChar c = true) :
    countMu l = 0 := by
  apply countMu_eq_zero
  intro c hc
  by_contra hmu
  rw [Bool.not_eq_false, Bool.or_eq_true] at hmu
  rcases hmu with hmu | hmu <;> rw [beq_iff_eq] at hmu <;> subst hmu <;>
    exact absurd (h _ hc) (by decide)

/- Characters matched case-insensitively against a `countMu`-free literal
contribute nothing to `countMu`. -/
theorem countMu_ci_lit {t pat : List Char}
    (hmap : t.map lowerChar = pat.map lowerChar)
    (hpat : ∀ c ∈ pat.map lowerChar, (c == '=' || c == '(') = false) :
    countMu t = 0 := by
  apply countMu_eq_zero
  intro c hc
  have hmem : lowerChar c ∈ pat.map lowerChar := by
    rw [← hmap]
    exact List.mem_map_of_mem lowerChar hc
  have hlc := hpat _ hmem
  by_contra hmu
  rw [Bool.not_eq_false, Bool.or_eq_true] at hmu
  rcases hmu with hmu | hmu <;> rw [beq_iff_eq] at hmu <;> subst hmu <;>
    exact absurd hlc (by decide)

/-! ### Generic properties of the substitution scanner -/

/- If every successful match strictly decreases the measure (counting the
replacement), so does the whole scan, by at least the match count. -/
theorem subScanF_mu {β : Type} {f : List Char → Option (β × List Char)} {rp : β → List Char}
    (hstep : ∀ l b r, f l = some (b, r) → countMu (rp b) + 1 + countMu r ≤ countMu l) :
    ∀ fuel l, countMu (subScanF f rp fuel l).2 + (subScanF f rp fuel l).1 ≤ countMu l := by
  intro fuel
  induction fuel with
  | zero => intro l; simp [subScanF]
  | succ n ih =>
    intro l
    cases l with
    | nil => simp [subScanF]
    | cons c cs =>
      simp only [subScanF]
      cases hf : f (c :: cs) with
      | some br =>
        obtain ⟨b, r⟩ := br
        have hs := hstep (c :: cs) b r hf
        have hi := ih r
        simp only [countMu_append]
        omega
      | none =>
        have hi := ih cs
        simp only [countMu_cons]
        omega

/- A scan that replaced nothing returns its input unchanged. -/
theorem subScanF_zero_eq {β : Type} (f : List Char → Option (β × List Char)) (rp : β → List Char) :
    ∀ fuel l, (subScanF f rp fuel l).1 = 0 → (subScanF f rp fuel l).2 = l := by
  intro fuel
  induction fuel with
  | zero => intro l _; rfl
  | succ n ih =>
    intro l
    cases l with
    | nil => intro _; rfl
    | cons c cs =>
      simp only [subScanF]
      cases hf : f (c :: cs) with
      | some br => intro hc; simp at hc
      | none =>
        intro hz
        have := ih cs hz
        simp [this]

/- If the pattern matches nowhere, the scan is the identity with count 0. -/
theorem subScanF_nomatch {β : Type} (f : List Char → Option (β × List Char)) (rp : β → List Char) :
    ∀ fuel l, hasMatchAt f l = false → subScanF f rp fuel l = (0, l) := by
  intro fuel
  induction fuel with
  | zero => intro l _; rfl
  | succ n ih =>
    intro l hm
    cases l with
    | nil => rfl
    | cons c cs =>
      simp only [hasMatchAt, Bool.or_eq_false_iff] at hm
      obtain ⟨hm1, hm2⟩ := hm
      have hf : f (c :: cs) = none := Option.not_isSome_iff_eq_none.mp (by simp [hm1])
      simp only [subScanF, hf]
      simp [ih cs hm2]

/-! ### Measure lemmas for the individual rule matchers -/

theorem matchBangEqNull_mu {l r : List Char} {b : Unit}
    (h : matchBangEqNull l = some (b, r)) :
    countMu isNotNullRepl + 1 + countMu r ≤ countMu l := by
  unfold matchBangEqNull at h
  revert h
  split
  · rename_i rest
    intro h
    revert h
    split
    · rename_i t r' heq
      intro h
      simp only [Option.some.injEq, Prod.mk.injEq] at h
      obtain ⟨-, h2⟩ := h
      subst h2
      have hd := stripCI_decomp _ _ _ _ heq
      have hsa := splitRun_append isPySpace rest
      have hws : countMu (splitRun isPySpace rest).1 = 0 :=
        countMu_space_run _ (splitRun_pred _ _)
      have ht : countMu t = 0 := countMu_ci_lit hd.2 (by decide)
      have hrepl : countMu isNotNullRepl = 0 := by decide
      have hrest : countMu rest = countMu r' := by
        rw [← hsa, countMu_append, hws, hd.1, countMu_append, ht]
        omega
      have hl : countMu ('!' :: '=' :: rest) = 1 + countMu rest := by
        have he : ('!' :: '=' :: rest) = ['!', '='] ++ rest := rfl
        have h2 : countMu ['!', '='] = 1 := by decide
        rw [he, countMu_append, h2]
      omega
    · intro h; simp at h
  · intro h; simp at h

theorem matchEqNull_mu {l r : List Char} {b : Unit}
    (h : matchEqNull l = some (b, r)) :
    countMu isNullRepl + 1 + countMu r ≤ countMu l := by
  unfold matchEqNull at h
  revert h
  split
  · rename_i rest
    intro h
    revert h
    split
    · rename_i t r' heq
      intro h
      simp only [Option.some.injEq, Prod.mk.injEq] at h
      obtain ⟨-, h2⟩ := h
      subst h2
      have hd := stripCI_decomp _ _ _ _ heq
      have hsa := splitRun_append isPySpace rest
      have hws : countMu (splitRun isPySpace rest).1 = 0 :=
        countMu_space_run _ (splitRun_pred _ _)
      have ht : countMu t = 0 := countMu_ci_lit hd.2 (by decide)
      have hrepl : countMu isNullRepl = 0 := by decide
      have hrest : countMu rest = countMu r' := by
        rw [← hsa, countMu_append, hws, hd.1, countMu_append, ht]
        omega
      have hl : countMu ('=' :: rest) = 1 + countMu rest := by
        have he : ('=' :: rest) = ['='] ++ rest := rfl
        have h2 : countMu ['='] = 1 := by decide
        rw [he, countMu_append, h2]
      omega
    · intro h; simp at h
  · intro h; simp at h

theorem digitChar_mu : ∀ k, k < 10 → ((digitChar k == '=') || (digitChar k == '(')) = false := by
  decide

theorem countMu_fmt04 (n : Nat) : countMu (fmt04 n) = 0 := by
  unfold fmt04
  split
  · apply countMu_eq_zero
    intro c hc
    simp only [List.mem_cons, List.not_mem_nil, or_false] at hc
    rcases hc with hc | hc | hc | hc <;> subst hc <;>
      exact digitChar_mu _ (Nat.mod_lt _ (by norm_num))
  · decide

theorem countMu_yearRepl (m : YearMatch) (hcol : countMu m.col = 0) :
    countMu (yearRepl m) = 1 := by
  unfold yearRepl
  rw [countMu_append, countMu_append, countMu_append, countMu_append, countMu_append,
    countMu_append, countMu_append, hcol, countMu_fmt04, countMu_fmt04]
  decide

theorem matchYear_mu {l r : List Char} {m : YearMatch}
    (h : matchYear l = some (m, r)) :
    countMu (yearRepl m) + 1 + countMu r ≤ countMu l := by
  unfold matchYear at h
  revert h
  split
  · intro h; simp at h
  · rename_i t l1 hstrip
    dsimp only
    split
    · rename_i l3 hpar
      split
      · rename_i hcolempty
        intro h; simp at h
      · rename_i hcolempty
        split
        · rename_i l7 hclose
          split
          · rename_i l9 heqc
            split
            · rename_i d1 d2 d3 d4 r' hdig
              split
              · intro h
                simp only [Option.some.injEq, Prod.mk.injEq] at h
                obtain ⟨hm, hr⟩ := h
                subst hr
                -- name the intermediate runs
                have hd := stripCI_decomp _ _ _ _ hstrip
                have h1 := splitRun_append isPySpace l1
                have h3 := splitRun_append isPySpace l3
                have hcol := splitRun_append isColChar (splitRun isPySpace l3).2
                have h7 := splitRun_append isPySpace l7
                have h9 := splitRun_append isPySpace l9
                have hc2 := splitRun_append isPySpace
                  (splitRun isColChar (splitRun isPySpace l3).2).2
                have hwst : countMu t = 0 := countMu_ci_lit hd.2 (by decide)
                have hw1 : countMu (splitRun isPySpace l1).1 = 0 :=
                  countMu_space_run _ (splitRun_pred _ _)
                have hw3 : countMu (splitRun isPySpace l3).1 = 0 :=
                  countMu_space_run _ (splitRun_pred _ _)
                have hw7 : countMu (splitRun isPySpace l7).1 = 0 :=
                  countMu_space_run _ (splitRun_pred _ _)
                have hw9 : countMu (splitRun isPySpace l9).1 = 0 :=
                  countMu_space_run _ (splitRun_pred _ _)
                have hwc2 : countMu (splitRun isPySpace
                    (splitRun isColChar (splitRun isPySpace l3).2).2).1 = 0 :=
                  countMu_space_run _ (splitRun_pred _ _)
                have hcolmu : countMu (splitRun isColChar (splitRun isPySpace l3).2).1 = 0 :=
                  countMu_col_run _ (splitRun_pred _ _)
                have hmcol : countMu m.col = 0 := by
                  rw [← hm]
                  exact hcolmu
                have hrepl := countMu_yearRepl m hmcol
                -- accumulate the measure along the decomposition of l
                have e0 : countMu l = countMu t + countMu l1 := by
                  rw [hd.1, countMu_append]
                have e1 : countMu l1 =
                    countMu (splitRun isPySpace l1).1 + countMu (splitRun isPySpace l1).2 := by
                  conv_lhs => rw [← h1, countMu_append]
                have e2 : countMu (splitRun isPySpace l1).2 = 1 + countMu l3 := by
                  rw [hpar]
                  have hx : ('(' :: l3) = ['('] ++ l3 := rfl
                  rw [hx, countMu_append]
                  have hy : countMu ['('] = 1 := by decide
                  omega
                have e3 : countMu l3 =
                    countMu (splitRun isPySpace l3).1 + countMu (splitRun isPySpace l3).2 := by
                  conv_lhs => rw [← h3, countMu_append]
                have e4 : countMu (splitRun isPySpace l3).2 =
                    countMu (splitRun isColChar (splitRun isPySpace l3).2).1 +
                    countMu (splitRun isColChar (splitRun isPySpace l3).2).2 := by
                  conv_lhs => rw [← hcol, countMu_append]
                have e5 : countMu (splitRun isColChar (splitRun isPySpace l3).2).2 =
                    countMu (splitRun isPySpace
                      (splitRun isColChar (splitRun isPySpace l3).2).2).1 +
                    countMu (splitRun isPySpace
                      (splitRun isColChar (splitRun isPySpace l3).2).2).2 := by
                  conv_lhs => rw [← hc2, countMu_append]
                have e6 : countMu (splitRun isPySpace
                    (splitRun isColChar (splitRun isPySpace l3).2).2).2 = countMu l7 := by
                  rw [hclose]
                  have hx : (')' :: l7) = [')'] ++ l7 := rfl
                  rw [hx, countMu_append]
                  have hy : countMu [')'] = 0 := by decide
                  omega
                have e7 : countMu l7 =
                    countMu (splitRun isPySpace l7).1 + countMu (splitRun isPySpace l7).2 := by
                  conv_lhs => rw [← h7, countMu_append]
                have e8 : countMu (splitRun isPySpace l7).2 = 1 + countMu l9 := by
                  rw [heqc]
                  have hx : ('=' :: l9) = ['='] ++ l9 := rfl
                  rw [hx, countMu_append]
                  have hy : countMu ['='] = 1 := by decide
                  omega
                have e9 : countMu l9 =
                    countMu (splitRun isPySpace l9).1 + countMu (splitRun isPySpace l9).2 := by
                  conv_lhs => rw [← h9, countMu_append]
                have e10 : countMu r' ≤ countMu (splitRun isPySpace l9).2 := by
                  rw [hdig]
                  rw [countMu_cons, countMu_cons, countMu_cons, countMu_cons]
                  omega
                omega
              · intro h; simp at h
            · intro h; simp at h
          · intro h; simp at h
        · intro h; simp at h
    · intro h; simp at h

/-! ### Decomposition and measure lemmas for the OR-chain rule -/

theorem orIterStep_decomp {col l t r : List Char}
    (h : orIterStep col l = some (t, r)) : l = t ++ r := by
  unfold orIterStep at h
  revert h
  dsimp only
  split
  · intro h; simp at h
  · rename_i hw1
    split
    · intro h; simp at h
    · rename_i t1 l2 hor
      split
      · intro h; simp at h
      · rename_i hw2
        split
        · intro h; simp at h
        · rename_i t2 l4 hcol
          split
          · rename_i l6 heqc
            split
            · intro h; simp at h
            · rename_i htok
              intro h
              simp only [Option.some.injEq, Prod.mk.injEq] at h
              obtain ⟨ht, hr⟩ := h
              subst ht; subst hr
              have d1 := splitRun_append isPySpace l
              have d2 := stripCI_decomp _ _ _ _ hor
              have d3 := splitRun_append isPySpace l2
              have d4 := stripCI_decomp _ _ _ _ hcol
              have d5 := splitRun_append isPySpace l4
              have d6 := splitRun_append isPySpace l6
              have d7 := splitRun_append isTokChar (splitRun isPySpace l6).2
              conv_lhs => rw [← d1, d2.1, ← d3, d4.1, ← d5, heqc, ← d6, ← d7]
              simp [List.append_assoc]
          · intro h; simp at h

theorem orIterF_decomp (col : List Char) :
    ∀ fuel l, l = (orIterF col fuel l).1 ++ (orIterF col fuel l).2 := by
  intro fuel
  induction fuel with
  | zero => intro l; rfl
  | succ n ih =>
    intro l
    simp only [orIterF]
    cases hs : orIterStep col l with
    | none => rfl
    | some tr =>
      obtain ⟨t, r⟩ := tr
      have hd := orIterStep_decomp hs
      dsimp only
      rw [List.append_assoc, ← ih r, hd]

theorem orSepAt_decomp {l r : List Char} (h : orSepAt l = some r) :
    ∃ mid, l = mid ++ r := by
  unfold orSepAt at h
  revert h
  dsimp only
  split
  · intro h; simp at h
  · rename_i hw1
    split
    · intro h; simp at h
    · rename_i t1 l2 hor
      split
      · intro h; simp at h
      · rename_i hw2
        intro h
        simp only [Option.some.injEq] at h
        subst h
        have d1 := splitRun_append isPySpace l
        have d2 := stripCI_decomp _ _ _ _ hor
        have d3 := splitRun_append isPySpace l2
        refine ⟨(splitRun isPySpace l).1 ++ t1 ++ (splitRun isPySpace l2).1, ?_⟩
        conv_lhs => rw [← d1, d2.1, ← d3]
        simp [List.append_assoc]

theorem findOrSep_decomp :
    ∀ l piece rest, findOrSep l = some (piece, rest) → ∃ mid, l = piece ++ mid ++ rest := by
  intro l
  induction l with
  | nil => intro piece rest h; simp [findOrSep] at h
  | cons c cs ih =>
    intro piece rest h
    simp only [findOrSep] at h
    revert h
    split
    · rename_i r hsep
      intro h
      simp only [Option.some.injEq, Prod.mk.injEq] at h
      obtain ⟨h1, h2⟩ := h
      subst h1; subst h2
      obtain ⟨mid, hmid⟩ := orSepAt_decomp hsep
      exact ⟨mid, by simpa using hmid⟩
    · split
      · rename_i p2 r2 hrec
        intro h
        simp only [Option.some.injEq, Prod.mk.injEq] at h
        obtain ⟨h1, h2⟩ := h
        subst h1; subst h2
        obtain ⟨mid, hmid⟩ := ih p2 r2 hrec
        exact ⟨mid, by simp [hmid]⟩
      · intro h; simp at h

theorem pySplitOrF_mu : ∀ fuel l, ((pySplitOrF fuel l).map countMu).sum ≤ countMu l := by
  intro fuel
  induction fuel with
  | zero => intro l; simp [pySplitOrF]
  | succ n ih =>
    intro l
    simp only [pySplitOrF]
    cases hf : findOrSep l with
    | none => simp
    | some pr =>
      obtain ⟨piece, rest⟩ := pr
      obtain ⟨mid, hmid⟩ := findOrSep_decomp l piece rest hf
      have := ih rest
      simp only [List.map_cons, List.sum_cons]
      rw [hmid, countMu_append, countMu_append]
      omega

theorem pyPartAfterEq_mu (l : List Char) : countMu (pyPartAfterEq l) ≤ countMu l := by
  induction l with
  | nil => simp [pyPartAfterEq]
  | cons c cs ih =>
    simp only [pyPartAfterEq]
    rw [countMu_cons]
    split
    · omega
    · omega

theorem countMu_splitRun_snd (p : Char → Bool) (l : List Char) :
    countMu (splitRun p l).2 ≤ countMu l := by
  have h := splitRun_append p l
  have : countMu (splitRun p l).1 + countMu (splitRun p l).2 = countMu l := by
    rw [← countMu_append, h]
  omega

theorem pyStrip_mu (l : List Char) : countMu (pyStrip l) ≤ countMu l := by
  unfold pyStrip
  rw [countMu_reverse]
  calc countMu (splitRun isPySpace ((splitRun isPySpace l).2.reverse)).2
      ≤ countMu ((splitRun isPySpace l).2.reverse) := countMu_splitRun_snd _ _
    _ = countMu (splitRun isPySpace l).2 := countMu_reverse _
    _ ≤ countMu l := countMu_splitRun_snd _ _

theorem countMu_joinCommaSp (vs : List (List Char)) :
    countMu (joinCommaSp vs) ≤ (vs.map countMu).sum := by
  induction vs with
  | nil => simp [joinCommaSp, countMu, List.countP_nil]
  | cons v vs ih =>
    cases vs with
    | nil => simp [joinCommaSp]
    | cons w ws =>
      have he : joinCommaSp (v :: w :: ws) = v ++ [',', ' '] ++ joinCommaSp (w :: ws) := by
        simp [joinCommaSp]
      rw [he, countMu_append, countMu_append]
      have hc : countMu [',', ' '] = 0 := by decide
      simp only [List.map_cons, List.sum_cons] at ih ⊢
      omega

theorem orRepl_mu (m : OrMatch) (hcol : countMu m.col = 0) :
    countMu (orRepl m) ≤ 1 + countMu m.v1 + countMu m.g3 := by
  unfold orRepl
  rw [countMu_append, countMu_append, countMu_append, countMu_append]
  have h1 : countMu ("WHERE ".data) = 0 := by decide
  have h2 : countMu (" IN (".data) = 1 := by decide
  have h3 : countMu [')'] = 0 := by decide
  have hj : countMu (joinCommaSp
        (m.v1 :: (pySplitOr m.g3).map (fun p => pyStrip (pyPartAfterEq p))))
      ≤ countMu m.v1 + countMu m.g3 := by
    have hs := countMu_joinCommaSp
      (m.v1 :: (pySplitOr m.g3).map (fun p => pyStrip (pyPartAfterEq p)))
    have hpt : (((pySplitOr m.g3).map (fun p => pyStrip (pyPartAfterEq p))).map countMu).sum
        ≤ ((pySplitOr m.g3).map countMu).sum := by
      rw [List.map_map]
      apply List.sum_le_sum
      intro p _
      exact le_trans (pyStrip_mu _) (pyPartAfterEq_mu p)
    have hsp : ((pySplitOr m.g3).map countMu).sum ≤ countMu m.g3 := pySplitOrF_mu _ _
    simp only [List.map_cons, List.sum_cons] at hs
    omega
  omega

theorem matchOrChain_mu {l r : List Char} {m : OrMatch}
    (h : matchOrChain l = some (m, r)) :
    countMu (orRepl m) + 1 + countMu r ≤ countMu l := by
  unfold matchOrChain at h
  revert h
  split
  · intro h; simp at h
  · rename_i tw l1 hstripw
    dsimp only
    split
    · intro h; simp at h
    · rename_i hne1
      split
      · intro h; simp at h
      · rename_i hne2
        split
        · rename_i l5 heq1
          split
          · intro h; simp at h
          · rename_i hne3
            split
            · intro h; simp at h
            · rename_i hne4
              split
              · intro h; simp at h
              · rename_i tor l9 hstripo
                split
                · intro h; simp at h
                · rename_i hne5
                  split
                  · intro h; simp at h
                  · rename_i tbk l11 hstripb
                    split
                    · rename_i l13 heq2
                      split
                      · intro h; simp at h
                      · rename_i hne6
                        intro h
                        simp only [Option.some.injEq, Prod.mk.injEq] at h
                        obtain ⟨hm, hr⟩ := h
                        subst hr
                        -- abbreviations for the nested runs
                        set A1 := splitRun isPySpace l1 with hA1
                        set C := splitRun isColChar A1.2 with hC
                        set A2 := splitRun isPySpace C.2 with hA2
                        set A3 := splitRun isPySpace l5 with hA3
                        set V1 := splitRun isTokChar A3.2 with hV1
                        set A4 := splitRun isPySpace V1.2 with hA4
                        set A5 := splitRun isPySpace l9 with hA5
                        set A6 := splitRun isPySpace l11 with hA6
                        set A7 := splitRun isPySpace l13 with hA7
                        set V2 := splitRun isTokChar A7.2 with hV2
                        set P := orIterF C.1 V2.2.length V2.2 with hP
                        -- decompositions
                        have dw := stripCI_decomp _ _ _ _ hstripw
                        have d1 : A1.1 ++ A1.2 = l1 := splitRun_append _ _
                        have dc : C.1 ++ C.2 = A1.2 := splitRun_append _ _
                        have d2 : A2.1 ++ A2.2 = C.2 := splitRun_append _ _
                        have d3 : A3.1 ++ A3.2 = l5 := splitRun_append _ _
                        have dv1 : V1.1 ++ V1.2 = A3.2 := splitRun_append _ _
                        have d4 : A4.1 ++ A4.2 = V1.2 := splitRun_append _ _
                        have dor := stripCI_decomp _ _ _ _ hstripo
                        have d5 : A5.1 ++ A5.2 = l9 := splitRun_append _ _
                        have dbk := stripCI_decomp _ _ _ _ hstripb
                        have d6 : A6.1 ++ A6.2 = l11 := splitRun_append _ _
                        have d7 : A7.1 ++ A7.2 = l13 := splitRun_append _ _
                        have dv2 : V2.1 ++ V2.2 = A7.2 := splitRun_append _ _
                        have dit : V2.2 = P.1 ++ P.2 := orIterF_decomp _ _ _
                        -- zero-measure pieces
                        have zw : countMu tw = 0 := countMu_ci_lit dw.2 (by decide)
                        have zc : countMu C.1 = 0 := countMu_col_run _ (splitRun_pred _ _)
                        -- measure chain
                        have e0 : countMu l = countMu tw + countMu l1 := by
                          rw [dw.1, countMu_append]
                        have e1 : countMu l1 = countMu A1.1 + countMu A1.2 := by
                          conv_lhs => rw [← d1, countMu_append]
                        have e2 : countMu A1.2 = countMu C.1 + countMu C.2 := by
                          conv_lhs => rw [← dc, countMu_append]
                        have e3 : countMu C.2 = countMu A2.1 + countMu A2.2 := by
                          conv_lhs => rw [← d2, countMu_append]
                        have e4 : countMu A2.2 = 1 + countMu l5 := by
                          rw [heq1]
                          have hx : ('=' :: l5) = ['='] ++ l5 := rfl
                          rw [hx, countMu_append]
                          have hy : countMu ['='] = 1 := by decide
                          omega
                        have e5 : countMu l5 = countMu A3.1 + countMu A3.2 := by
                          conv_lhs => rw [← d3, countMu_append]
                        have e6 : countMu A3.2 = countMu V1.1 + countMu V1.2 := by
                          conv_lhs => rw [← dv1, countMu_append]
                        have e7 : countMu V1.2 = countMu A4.1 + countMu A4.2 := by
                          conv_lhs => rw [← d4, countMu_append]
                        have e8 : countMu A4.2 = countMu tor + countMu l9 := by
                          rw [dor.1, countMu_append]
                        have e9 : countMu l9 = countMu A5.1 + countMu A5.2 := by
                          conv_lhs => rw [← d5, countMu_append]
                        have e10 : countMu A5.2 = countMu tbk + countMu l11 := by
                          rw [dbk.1, countMu_append]
                        have e11 : countMu l11 = countMu A6.1 + countMu A6.2 := by
                          conv_lhs => rw [← d6, countMu_append]
                        have e12 : countMu A6.2 = 1 + countMu l13 := by
                          rw [heq2]
                          have hx : ('=' :: l13) = ['='] ++ l13 := rfl
                          rw [hx, countMu_append]
                          have hy : countMu ['='] = 1 := by decide
                          omega
                        have e13 : countMu l13 = countMu A7.1 + countMu A7.2 := by
                          conv_lhs => rw [← d7, countMu_append]
                        have e14 : countMu A7.2 = countMu V2.1 + countMu V2.2 := by
                          conv_lhs => rw [← dv2, countMu_append]
                        have e15 : countMu V2.2 = countMu P.1 + countMu P.2 := by
                          conv_lhs => rw [dit, countMu_append]
                        -- the replacement bound
                        have hmcol : countMu m.col = 0 := by rw [← hm]; exact zc
                        have hrepl := orRepl_mu m hmcol
                        have hv1 : m.v1 = V1.1 := by rw [← hm]
                        have hg3 : m.g3 = V2.1 ++ P.1 := by rw [← hm]
                        have hg3mu : countMu m.g3 = countMu V2.1 + countMu P.1 := by
                          rw [hg3, countMu_append]
                        rw [hv1, hg3mu] at hrepl
                        omega
                    · intro h; simp at h
        · intro h; simp at h

/-! ### The plan analyzer: claim theorems -/

/-- C3: for every sequence of plan rows and every sequence of
recommendations, the health score returned by `_compute_index_health`
satisfies `0 ≤ score ≤ 100`. -/
theorem compute_index_health_bounds (rows : List PlanRow) (recs : List IndexRecommendation) :
    0 ≤ (compute_index_health rows recs).1 ∧ (compute_index_health rows recs).1 ≤ 100 := by
  unfold compute_index_health
  exact ⟨le_max_left 0 _, max_le (by norm_num) (min_le_left _ _)⟩

theorem healthRowStep_eq (acc : Int × List String) (row : PlanRow) :
    healthRowStep acc row = (acc.1 - specRowPenalty row, acc.2 ++ specRowIssues row) := by
  unfold healthRowStep specRowPenalty specRowIssues
  dsimp only
  split_ifs <;> refine Prod.ext ?_ ?_ <;> simp [List.append_assoc] <;> omega

theorem foldl_healthRowStep (rows : List PlanRow) :
    ∀ (s : Int) (is : List String),
      rows.foldl healthRowStep (s, is) =
        (s - (rows.map specRowPenalty).sum, is ++ (rows.map specRowIssues).flatten) := by
  induction rows with
  | nil => intro s is; simp
  | cons r rows ih =>
    intro s is
    rw [List.foldl_cons, healthRowStep_eq, ih]
    refine Prod.ext ?_ ?_
    · simp only [List.map_cons, List.sum_cons]
      omega
    · simp [List.append_assoc]

/-- C4: `_compute_index_health` starts from 100 and, per plan row in
iteration order, subtracts 20 for `type = ALL` (appending the full-scan
issue), 5 for `type = index`, 10 when the annotation mentions
`filesort` and 10 when it mentions a temporary table; penalties are
additive across rows; a non-empty recommendation list additionally
subtracts `min(5 * count, 20)` and appends the count issue last, and the
issue order matches row-iteration order.  Stated as equality with the
specification-side formulation `computeHealthSpec`. -/
theorem compute_index_health_matches_spec
    (rows : List PlanRow) (recs : List IndexRecommendation) :
    compute_index_health rows recs = computeHealthSpec rows recs := by
  unfold compute_index_health computeHealthSpec
  dsimp only
  rw [foldl_healthRowStep]
  by_cases hre : recs.isEmpty = true
  · simp [hre]
  · simp only [hre, if_false, Bool.false_eq_true]
    refine Prod.ext ?_ ?_
    · dsimp only
      rw [sub_sub]
    · simp

/-- C5 counterexample: a plan row satisfying all four conditions stated
in the claim (full scan, no chosen key, `Using where` marker, empty
`possible_keys`) but with no `table` field produces no recommendation,
so the claimed equivalence is false as stated. -/
theorem analyze_explain_missing_table_cex :
    specRecFlag ⟨none, some "ALL", none, none, some "Using where"⟩ = true ∧
    analyze_explain_for_indexes [⟨none, some "ALL", none, none, some "Using where"⟩] = [] :=
  ⟨by decide, by decide⟩

/-- C5 (amended): `_analyze_explain_for_indexes` emits exactly one
recommendation for a plan row if and only if the row is a full scan with
no chosen key, a `Using where` marker, empty/absent `possible_keys`,
AND a non-empty `table` field; the recommendation names that single
table, carries the single placeholder column token, and its suggested
name is `idx_` + table + `_` + the placeholder. -/
theorem analyze_explain_per_row_amended :
    (∀ row : PlanRow,
      analyzeRow row =
        if specRecFlag row && pyTruthy row.table then
          some { table := pyStrOr row.table ""
                 suggested_index_name := "idx_" ++ pyStrOr row.table "" ++ "_" ++ placeholderColumn
                 columns := [placeholderColumn]
                 reason := fullScanReason }
        else none) ∧
    (∀ rows : List PlanRow, analyze_explain_for_indexes rows = rows.filterMap analyzeRow) := by
  constructor
  · intro row
    have hsi : ∀ t : String, suggest_index_name t [placeholderColumn] =
        "idx_" ++ t ++ "_" ++ placeholderColumn := fun t => rfl
    unfold analyzeRow specRecFlag
    dsimp only
    by_cases h1 : pyLower (pyStrOr row.typ "") == "all" <;>
    by_cases h2 : pyTruthy row.key <;>
    by_cases h3 : hasSub (pyStrOr row.extra "") "Using where" <;>
    by_cases h4 : pyTruthy row.possibleKeys <;>
    by_cases h5 : pyTruthy row.table <;>
      simp [h1, h2, h3, h4, h5, hsi]
  · intro rows
    induction rows with
    | nil => rfl
    | cons r rows ih =>
      unfold analyze_explain_for_indexes
      cases h : analyzeRow r <;> simp [List.filterMap_cons, h, ih]

/-- C6 counterexample: a plan row with `type = ALL` but no `table` field
is NOT skipped by the health computation; it contributes its full
penalty and an issue naming the table as `?`. -/
theorem health_missing_table_cex :
    compute_index_health [⟨none, some "ALL", none, none, none⟩] [] =
      (80, ["Full table scan on ? (type=ALL)"]) := by
  decide

/-- C6 (amended): a plan row with a falsy `table` yields no
recommendation, and a row missing both `type` and `Extra` contributes no
penalty and no issue to the health computation; neither computation can
fail (both are total).  A row with a recognized access type but missing
`table` still contributes penalties, with the table rendered as `?`
(see the counterexample). -/
theorem malformed_row_handling_amended :
    (∀ row : PlanRow, pyTruthy row.table = false → analyzeRow row = none) ∧
    (∀ (acc : Int × List String) (row : PlanRow), row.typ = none → row.extra = none →
      healthRowStep acc row = acc) := by
  constructor
  · intro row h
    unfold analyzeRow
    dsimp only
    by_cases h1 : pyLower (pyStrOr row.typ "") == "all" <;>
    by_cases h2 : pyTruthy row.key <;>
    by_cases h3 : hasSub (pyStrOr row.extra "") "Using where" <;>
    by_cases h4 : pyTruthy row.possibleKeys <;>
      simp [h1, h2, h3, h4, h]
  · intro acc row h1 h2
    unfold healthRowStep
    rw [h1, h2]
    have c1 : (pyLower (pyStrOr none "") == "all") = false := by decide
    have c2 : (pyLower (pyStrOr none "") == "index") = false := by decide
    have c3 : hasSub (pyLower (pyStrOr none "")) "filesort" = false := by decide
    have c4 : hasSub (pyLower (pyStrOr none "")) "temporary" = false := by decide
    simp [c1, c2, c3, c4]

/-- C6 witness: the amended theorem applied at concrete rows. -/
theorem malformed_row_handling_witness :
    analyzeRow ⟨none, some "ALL", none, none, some "Using where"⟩ = none ∧
    healthRowStep (55, ["prior issue"]) ⟨some "t", none, none, some "k", none⟩ =
      (55, ["prior issue"]) :=
  ⟨malformed_row_handling_amended.1 _ rfl, malformed_row_handling_amended.2 _ _ rfl rfl⟩

/-! ### The rewrite engine: claim theorems -/

theorem string_mk_data (s : String) : String.mk s.data = s := rfl

theorem replicate_eq_nil_imp {α : Type} {n : Nat} {a : α} (h : List.replicate n a = []) :
    n = 0 := by
  cases n with
  | zero => rfl
  | succ k => simp [List.replicate] at h

theorem if_beq_nil_imp {α : Type} {n : Nat} {d : α}
    (h : (if n == 0 then ([] : List α) else [d]) = []) : n = 0 := by
  by_cases hb : (n == 0) = true
  · simpa using hb
  · rw [if_neg hb] at h
    simp at h

/-- C1: the rewrite engine is total (its embedding is a Lean function on
all string inputs), and when none of the three rules' patterns matches
the input, `rewrite_query` returns the input unchanged with an empty
change list (the tier is recorded lowercased). -/
theorem rewrite_query_no_match_identity (sql mode : String)
    (h1 : hasMatchAt matchBangEqNull sql.data = false)
    (h2 : hasMatchAt matchEqNull sql.data = false)
    (h3 : hasMatchAt matchOrChain sql.data = false)
    (h4 : hasMatchAt matchYear sql.data = false) :
    rewrite_query sql mode =
      { original_sql := sql, rewritten_sql := sql, mode := pyLower mode, changes := [] } := by
  have e1 := subScanF_nomatch matchBangEqNull (fun _ => isNotNullRepl) sql.data.length sql.data h1
  have e2 := subScanF_nomatch matchEqNull (fun _ => isNullRepl) sql.data.length sql.data h2
  have e3 := subScanF_nomatch matchOrChain orRepl sql.data.length sql.data h3
  have e4 := subScanF_nomatch matchYear yearRepl sql.data.length sql.data h4
  unfold rewrite_query rewriteNullComparisons rewriteOrToIn rewriteYearOnColumn
  dsimp only
  rw [e1]
  dsimp only
  rw [e2]
  dsimp only
  rw [e3]
  dsimp only
  rw [e4]
  simp [string_mk_data]

/-- C1 witness: the theorem applied at a concrete query that no rule
matches. -/
theorem rewrite_query_no_match_identity_witness :
    hasMatchAt matchBangEqNull "SELECT id FROM users".data = false ∧
    hasMatchAt matchEqNull "SELECT id FROM users".data = false ∧
    hasMatchAt matchOrChain "SELECT id FROM users".data = false ∧
    hasMatchAt matchYear "SELECT id FROM users".data = false ∧
    rewrite_query "SELECT id FROM users" "safe" =
      { original_sql := "SELECT id FROM users", rewritten_sql := "SELECT id FROM users",
        mode := "safe", changes := [] } :=
  ⟨by decide, by decide, by decide, by decide, by
    rw [rewrite_query_no_match_identity "SELECT id FROM users" "safe"
      (by decide) (by decide) (by decide) (by decide)]
    have hm : pyLower "safe" = "safe" := by decide
    rw [hm]⟩

/-- C2 counterexample: an unrecognized tier string is not rejected;
`rewrite_query` completes normally, lowercases the bogus tier into the
result's `mode` field and otherwise behaves exactly as for a valid
tier, contradicting the claimed loud failure. -/
theorem rewrite_query_invalid_tier_not_rejected :
    rewrite_query "SELECT 1" "BOGUS" =
      { original_sql := "SELECT 1", rewritten_sql := "SELECT 1", mode := "bogus",
        changes := [] } := by
  decide

/-- C2 (amended): `rewrite_query` performs no tier validation: every mode
string is accepted, recorded lowercased in the result's `mode`, and the
rewriting behavior is identical to tier `safe` for all inputs. -/
theorem rewrite_query_mode_unvalidated (sql mode : String) :
    (rewrite_query sql mode).mode = pyLower mode ∧
    (rewrite_query sql mode).rewritten_sql = (rewrite_query sql "safe").rewritten_sql ∧
    (rewrite_query sql mode).changes = (rewrite_query sql "safe").changes :=
  ⟨rfl, rfl, rfl⟩

/- Core equivalence behind C10: a rewrite records no changes exactly when
its output equals its input.  The forward direction is the identity of
non-matching scans; the backward direction uses the `countMu` measure:
every replacement strictly decreases it, and no later rule can restore
it, so any recorded change forces a textual difference. -/
theorem rewrite_query_changes_empty_iff (sql mode : String) :
    (rewrite_query sql mode).changes = [] ↔ (rewrite_query sql mode).rewritten_sql = sql := by
  unfold rewrite_query rewriteNullComparisons rewriteOrToIn rewriteYearOnColumn
  dsimp only
  set p1 := subScanF matchBangEqNull (fun _ => isNotNullRepl) sql.data.length sql.data with hp1
  set p2 := subScanF matchEqNull (fun _ => isNullRepl) p1.2.length p1.2 with hp2
  set p3 := subScanF matchOrChain orRepl p2.2.length p2.2 with hp3
  set p4 := subScanF matchYear yearRepl p3.2.length p3.2 with hp4
  have m1 : countMu p1.2 + p1.1 ≤ countMu sql.data := by
    rw [hp1]; exact subScanF_mu (fun _ _ _ h => matchBangEqNull_mu h) _ _
  have m2 : countMu p2.2 + p2.1 ≤ countMu p1.2 := by
    rw [hp2]; exact subScanF_mu (fun _ _ _ h => matchEqNull_mu h) _ _
  have m3 : countMu p3.2 + p3.1 ≤ countMu p2.2 := by
    rw [hp3]; exact subScanF_mu (fun _ _ _ h => matchOrChain_mu h) _ _
  have m4 : countMu p4.2 + p4.1 ≤ countMu p3.2 := by
    rw [hp4]; exact subScanF_mu (fun _ _ _ h => matchYear_mu h) _ _
  constructor
  · intro hch
    simp only [List.append_eq_nil] at hch
    obtain ⟨⟨⟨hc1, hc2⟩, hc3⟩, hc4⟩ := hch
    have z1 : p1.1 = 0 := if_beq_nil_imp hc1
    have z2 : p2.1 = 0 := if_beq_nil_imp hc2
    have z3 : p3.1 = 0 := replicate_eq_nil_imp hc3
    have z4 : p4.1 = 0 := replicate_eq_nil_imp hc4
    have q1 : p1.2 = sql.data := by
      rw [hp1]; exact subScanF_zero_eq _ _ _ _ (hp1 ▸ z1)
    have q2 : p2.2 = p1.2 := by
      rw [hp2]; exact subScanF_zero_eq _ _ _ _ (hp2 ▸ z2)
    have q3 : p3.2 = p2.2 := by
      rw [hp3]; exact subScanF_zero_eq _ _ _ _ (hp3 ▸ z3)
    have q4 : p4.2 = p3.2 := by
      rw [hp4]; exact subScanF_zero_eq _ _ _ _ (hp4 ▸ z4)
    rw [q4, q3, q2, q1, string_mk_data]
  · intro heq
    have hdata : p4.2 = sql.data := congrArg String.data heq
    have hmu : countMu p4.2 = countMu sql.data := by rw [hdata]
    have z1 : p1.1 = 0 := by omega
    have z2 : p2.1 = 0 := by omega
    have z3 : p3.1 = 0 := by omega
    have z4 : p4.1 = 0 := by omega
    simp [z1, z2, z3, z4]

/-- C7 (code bug): on the specification's example the OR-chain folding
drops the middle value and emits an empty list element — the produced
IN-list is `(\x27a\x27, , \x27c\x27)`, not the three original values;
the two-disjunct case loses its second value entirely; a chain over two
different columns is left unchanged. -/
theorem or_to_in_drops_middle_value :
    (rewrite_query "SELECT * FROM t WHERE status = \x27a\x27 OR status = \x27b\x27 OR status = \x27c\x27"
        "safe").rewritten_sql =
      "SELECT * FROM t WHERE status IN (\x27a\x27, , \x27c\x27)" ∧
    (rewrite_query "WHERE a = 1 OR a = 2" "safe").rewritten_sql = "WHERE a IN (1, )" ∧
    (rewrite_query "WHERE a = 1 OR b = 2" "safe").rewritten_sql = "WHERE a = 1 OR b = 2" :=
  ⟨by decide, by decide, by decide⟩

/-- C8: the YEAR()-equality rule rewrites the specification's example to
the half-open range, and rewrites every occurrence when the pattern
appears more than once. -/
theorem year_rewrite_examples :
    (rewrite_query "SELECT * FROM orders WHERE YEAR(created_at) = 2024" "safe").rewritten_sql =
      "SELECT * FROM orders WHERE created_at >= \x272024-01-01\x27 AND created_at < \x272025-01-01\x27" ∧
    hasSub (rewrite_query "SELECT * FROM orders WHERE YEAR(created_at) = 2024"
        "safe").rewritten_sql "created_at >= \x272024-01-01\x27" = true ∧
    hasSub (rewrite_query "SELECT * FROM orders WHERE YEAR(created_at) = 2024"
        "safe").rewritten_sql "created_at < \x272025-01-01\x27" = true ∧
    (rewrite_query "SELECT * FROM a WHERE YEAR(x) = 1999 AND YEAR(y) = 2024" "safe").rewritten_sql =
      "SELECT * FROM a WHERE x >= \x271999-01-01\x27 AND x < \x272000-01-01\x27 AND y >= \x272024-01-01\x27 AND y < \x272025-01-01\x27" :=
  ⟨by decide, by decide, by decide, by decide⟩

/-- C9 counterexample: re-applying `rewrite_query` to a prior output is
not a no-op in general — the YEAR rule's replacement can recombine with
adjacent digits of the surrounding text into a fresh match, so the
second pass rewrites again and appends a change. -/
theorem rewrite_second_pass_rewrites_again :
    (rewrite_query "YEAR(c)=20YEAR(24)=2024" "safe").rewritten_sql =
      "YEAR(c)=2024 >= \x272024-01-01\x27 AND 24 < \x272025-01-01\x27" ∧
    (rewrite_query (rewrite_query "YEAR(c)=20YEAR(24)=2024" "safe").rewritten_sql
        "safe").changes ≠ [] ∧
    (rewrite_query (rewrite_query "YEAR(c)=20YEAR(24)=2024" "safe").rewritten_sql
        "safe").rewritten_sql ≠
      (rewrite_query "YEAR(c)=20YEAR(24)=2024" "safe").rewritten_sql :=
  ⟨by decide, by decide, by decide⟩

/-- C9 (amended): idempotence fails in general (see the counterexample);
what holds is that a pass that recorded no changes is a fixed point of
`rewrite_query`, and in particular a second application changes nothing
further on the outputs of the specification's three example rewrites. -/
theorem rewrite_second_pass_examples_fixed :
    (∀ sql mode : String, (rewrite_query sql mode).changes = [] →
      rewrite_query (rewrite_query sql mode).rewritten_sql mode = rewrite_query sql mode) ∧
    (rewrite_query (rewrite_query "SELECT * FROM users WHERE deleted != NULL"
        "safe").rewritten_sql "safe").changes = [] ∧
    (rewrite_query (rewrite_query
        "SELECT * FROM t WHERE status = \x27a\x27 OR status = \x27b\x27 OR status = \x27c\x27"
        "safe").rewritten_sql "safe").changes = [] ∧
    (rewrite_query (rewrite_query "SELECT * FROM orders WHERE YEAR(created_at) = 2024"
        "safe").rewritten_sql "safe").changes = [] := by
  refine ⟨?_, by decide, by decide, by decide⟩
  intro sql mode hch
  have heq : (rewrite_query sql mode).rewritten_sql = sql :=
    (rewrite_query_changes_empty_iff sql mode).mp hch
  rw [heq]

/-- C9 witness: the universal part of the amended theorem applied at a
concrete no-change input. -/
theorem rewrite_second_pass_examples_fixed_witness :
    rewrite_query (rewrite_query "SELECT 1" "safe").rewritten_sql "safe" =
      rewrite_query "SELECT 1" "safe" :=
  rewrite_second_pass_examples_fixed.1 "SELECT 1" "safe" (by decide)

/-- C10: the change list is non-empty exactly when the rewritten SQL
differs from the original. -/
theorem rewrite_query_changes_iff_modified (sql mode : String) :
    (rewrite_query sql mode).changes ≠ [] ↔ (rewrite_query sql mode).rewritten_sql ≠ sql :=
  not_congr (rewrite_query_changes_empty_iff sql mode)

end TurboIndex
